import Mathlib

/-!
Shallow embedding of the floor-plan wall/room detection core
(`backend/app/services/wall_detection.py` and
`backend/app/services/room_detection.py`).

Modelling conventions:
* Pixel coordinates are `ℤ`; pixel counts and the room-id counter are `ℕ`.
* Python floats are modelled exactly: quantities that the source computes
  with rational float arithmetic (areas, ratios, confidences, thickness)
  live in `ℚ`; quantities that are genuinely irrational (`sqrt`-lengths in
  the wall-confidence score) live in `ℝ`.  Comparisons of the form
  `sqrt e < c` in the source are embedded as the equivalent exact
  comparison `e < c^2` (a bridging lemma is proved next to each use).
* OpenCV primitives (`floodFill` region discovery, `findContours`,
  `approxPolyDP`, `arcLength`, `HoughLinesP`, the pixel raster probed by
  the thickness scan) are deterministic library calls outside this
  repository; they are modelled as explicit oracle inputs, while
  `contourArea` (shoelace formula), `boundingRect` (min/max corners,
  inclusive width/height) and `moments` (Green-formula centroid) are
  modelled concretely, matching the documented OpenCV semantics on
  integer contours.
* Python `round(x, 3)` (nearest, ties to even) is modelled exactly on `ℚ`
  by `round3`.
* Python's stable `list.sort` is modelled by a stable insertion sort.
-/

/-! ### Generic numeric helpers -/

/-- Truncation toward zero, the semantics of Python `int(float)`. -/
def truncQ (q : ℚ) : ℤ := if 0 ≤ q then ⌊q⌋ else ⌈q⌉

/-- Round to the nearest integer with ties to even, the semantics of
Python `round` on an exactly representable value. -/
def roundHalfEven (q : ℚ) : ℤ :=
  let f := ⌊q⌋
  let r := q - (f : ℚ)
  if r < 1/2 then f
  else if 1/2 < r then f + 1
  else if 2 ∣ f then f else f + 1

/-- Rounding to three decimals, the semantics of Python `round(x, 3)`. -/
def round3 (q : ℚ) : ℚ := (roundHalfEven (q * 1000) : ℚ) / 1000

/-- Decimal value of a digit string, used to invert `Nat.repr`. -/
def chListVal (l : List Char) : ℕ := l.foldl (fun a c => 10 * a + (c.toNat - 48)) 0

/-! ### Basic geometry over integer pixel coordinates -/

/-- Integer pixel point. -/
abbrev Pt : Type := ℤ × ℤ

/-- Raw line segment, `(x1, y1, x2, y2)` as produced by the Hough step. -/
abbrev LineSeg : Type := ℤ × ℤ × ℤ × ℤ

/-- Cross product of two planar vectors. -/
def cross (p q : Pt) : ℤ := p.1 * q.2 - p.2 * q.1

/-- Twice the signed (shoelace) area of a closed polygon. -/
def shoelace (c : List Pt) : ℤ :=
  (c.zip (c.rotate 1)).foldl (fun a pq => a + cross pq.1 pq.2) 0

/-- Model of `cv2.contourArea` (default non-oriented mode): the absolute
value of the Green-formula polygon area. -/
def contourArea (c : List Pt) : ℚ := (|shoelace c| : ℚ) / 2

/-- Model of `cv2.boundingRect`: upright rectangle `(x, y, w, h)` with
inclusive pixel extents (`w = max x - min x + 1`). Empty contours (never
produced by `findContours`) map to the degenerate rectangle. -/
def boundingRect : List Pt → ℤ × ℤ × ℤ × ℤ
  | [] => (0, 0, 0, 0)
  | p :: ps =>
    let x0 := ps.foldl (fun a q => min a q.1) p.1
    let y0 := ps.foldl (fun a q => min a q.2) p.2
    let x1 := ps.foldl (fun a q => max a q.1) p.1
    let y1 := ps.foldl (fun a q => max a q.2) p.2
    (x0, y0, x1 - x0 + 1, y1 - y0 + 1)

/-! ### Room detection data model (`room_detection.py`) -/

/-- Room shape classification (`RoomShape`). -/
inductive RoomShape
  | rectangular
  | l_shaped
  | t_shaped
  | u_shaped
  | irregular
deriving DecidableEq

/-- Detected room contour (`RoomContour`). -/
structure RoomContour where
  id : String
  contour : List Pt
  bounds : ℤ × ℤ × ℤ × ℤ
  center : ℚ × ℚ
  area : ℚ
  perimeter : ℚ
  shape : RoomShape
  confidence : ℚ
  vertices : List Pt
deriving DecidableEq

/-- Property `RoomContour.width`. -/
def RoomContour.width (r : RoomContour) : ℤ := r.bounds.2.2.1

/-- Property `RoomContour.height`. -/
def RoomContour.height (r : RoomContour) : ℤ := r.bounds.2.2.2

/-- Property `RoomContour.rectangularity`: area over bounding-rect area,
`0` when the bounding rectangle is degenerate.  There is no clamping in
the source; the bound `≤ 1` is a geometric consequence. -/
def RoomContour.rectangularity (r : RoomContour) : ℚ :=
  if r.width * r.height = 0 then 0 else r.area / ((r.width * r.height : ℤ) : ℚ)

/-- Configuration constants of `RoomDetectionConfig` (defaults; ratios are
named `REL` here because of lexical constraints of this development). -/
def MIN_ROOM_AREA : ℚ := 5000

/-- `MAX_ROOM_AREA_RATIO = 0.7`. -/
def MAX_ROOM_AREA_REL : ℚ := 7/10

/-- `MIN_ROOM_AREA_RATIO = 0.005`. -/
def MIN_ROOM_AREA_REL : ℚ := 5/1000

/-- `RECTANGULAR_THRESHOLD = 0.70`. -/
def RECTANGULAR_THRESHOLD : ℚ := 70/100

/-- `MIN_CONFIDENCE_AREA = 15000`. -/
def MIN_CONFIDENCE_AREA : ℚ := 15000

/-- `IDEAL_RECTANGULARITY = 0.80`. -/
def IDEAL_RECTANGULARITY : ℚ := 80/100

/-- `MIN_ASPECT_RATIO = 0.15`. -/
def MIN_ASPECT_REL : ℚ := 15/100

/-- `MAX_ASPECT_RATIO = 6.0`. -/
def MAX_ASPECT_REL : ℚ := 6

/-- `MIN_RECTANGULARITY = 0.3`. -/
def MIN_RECTANGULARITY : ℚ := 3/10

/-! ### Polygon centroid (`RoomDetector._calculate_center`)

Model of `cv2.moments` on a point contour via Green's formula
(`m00` = signed area, `m10`/`m01` = first moments); falls back to the
bounding-box center when `m00 = 0`, exactly as the source does. -/

/-- Green-formula moments of a closed polygon: `(m00, m10, m01)`. -/
def polyMoments (c : List Pt) : ℚ × ℚ × ℚ :=
  let pairs := c.zip (c.rotate 1)
  let m00 : ℚ := ((pairs.map fun pq => cross pq.1 pq.2).sum : ℤ) / 2
  let m10 : ℚ := ((pairs.map fun pq => (pq.1.1 + pq.2.1) * cross pq.1 pq.2).sum : ℤ) / 6
  let m01 : ℚ := ((pairs.map fun pq => (pq.1.2 + pq.2.2) * cross pq.1 pq.2).sum : ℤ) / 6
  (m00, m10, m01)

/-- Embedding of `RoomDetector._calculate_center`. -/
def calculateCenter (c : List Pt) : ℚ × ℚ :=
  let m := polyMoments c
  if m.1 = 0 then
    let b := boundingRect c
    ((b.1 : ℚ) + (b.2.2.1 : ℚ) / 2, (b.2.1 : ℚ) + (b.2.2.2 : ℚ) / 2)
  else (m.2.1 / m.1, m.2.2 / m.1)

/-! ### Right angles and shape classification -/

/-- Right-angle test at one vertex, from the source's dot-product angle
formula.  The source computes `angle = degrees(arccos(dot / (m1 * m2)))`
and tests `|angle - 90| <= 15`; for nonzero legs this holds iff
`|dot| <= sin 15° * m1 * m2`, i.e. iff `dot^2 * 4 <= (2 - sqrt 3) * m1^2 * m2^2`,
which is embedded exactly below over `ℤ` (with `s = 2*a*b - 4*dot^2`:
`0 ≤ s ∧ 3*a^2*b^2 ≤ s^2`).  Zero-magnitude legs are skipped (`continue`). -/
def isRightAngle (p1 p2 p3 : Pt) : Prop :=
  let v1 : Pt := (p1.1 - p2.1, p1.2 - p2.2)
  let v2 : Pt := (p3.1 - p2.1, p3.2 - p2.2)
  let dot := v1.1 * v2.1 + v1.2 * v2.2
  let a := v1.1 ^ 2 + v1.2 ^ 2
  let b := v2.1 ^ 2 + v2.2 ^ 2
  a ≠ 0 ∧ b ≠ 0 ∧ 0 ≤ 2 * a * b - 4 * dot ^ 2 ∧ 3 * (a * b) ^ 2 ≤ (2 * a * b - 4 * dot ^ 2) ^ 2

instance (p1 p2 p3 : Pt) : Decidable (isRightAngle p1 p2 p3) := by
  unfold isRightAngle; infer_instance

/-- Embedding of `RoomDetector._count_right_angles` (default tolerance 15°).
Indexing mirrors the source: vertex `i` with cyclic neighbours
`(i - 1) % n` and `(i + 1) % n`. -/
def countRightAngles (vertices : List Pt) : ℕ :=
  if vertices.length < 3 then 0
  else
    let n := vertices.length
    ((List.range n).filter fun i =>
      decide (isRightAngle (vertices.getD ((i + n - 1) % n) (0, 0))
        (vertices.getD i (0, 0)) (vertices.getD ((i + 1) % n) (0, 0)))).length

/-- Embedding of `RoomDetector._is_l_shaped`. -/
def is_l_shaped (vertices : List Pt) (rectangularity : ℚ) : Prop :=
  (5 ≤ vertices.length ∧ vertices.length ≤ 8) ∧
  (45/100 ≤ rectangularity ∧ rectangularity ≤ 85/100) ∧
  4 ≤ countRightAngles vertices

/-- Embedding of `RoomDetector._is_t_shaped`. -/
def is_t_shaped (vertices : List Pt) (rectangularity : ℚ) : Prop :=
  (7 ≤ vertices.length ∧ vertices.length ≤ 10) ∧
  (45/100 ≤ rectangularity ∧ rectangularity ≤ 80/100) ∧
  6 ≤ countRightAngles vertices

/-- Embedding of `RoomDetector._is_u_shaped`. -/
def is_u_shaped (vertices : List Pt) (rectangularity : ℚ) : Prop :=
  (7 ≤ vertices.length ∧ vertices.length ≤ 10) ∧
  (50/100 ≤ rectangularity ∧ rectangularity ≤ 85/100) ∧
  6 ≤ countRightAngles vertices

instance (v : List Pt) (r : ℚ) : Decidable (is_l_shaped v r) := by
  unfold is_l_shaped; infer_instance

instance (v : List Pt) (r : ℚ) : Decidable (is_t_shaped v r) := by
  unfold is_t_shaped; infer_instance

instance (v : List Pt) (r : ℚ) : Decidable (is_u_shaped v r) := by
  unfold is_u_shaped; infer_instance

/-- Rectangularity as computed inside `_detect_shape` and
`_calculate_confidence`: `area / (w*h)` guarded by `rect_area > 0`. -/
def shapeRectangularity (area : ℚ) (bounds : ℤ × ℤ × ℤ × ℤ) : ℚ :=
  let rect_area := bounds.2.2.1 * bounds.2.2.2
  if 0 < rect_area then area / (rect_area : ℚ) else 0

/-- Embedding of `RoomDetector._detect_shape`. -/
def detect_shape (vertices : List Pt) (area : ℚ) (bounds : ℤ × ℤ × ℤ × ℤ) : RoomShape :=
  let rectangularity := shapeRectangularity area bounds
  if vertices.length = 4 ∧ RECTANGULAR_THRESHOLD ≤ rectangularity then RoomShape.rectangular
  else if is_l_shaped vertices rectangularity then RoomShape.l_shaped
  else if is_t_shaped vertices rectangularity then RoomShape.t_shaped
  else if is_u_shaped vertices rectangularity then RoomShape.u_shaped
  else RoomShape.irregular

/-! ### Confidence (`RoomDetector._calculate_confidence`) -/

/-- Shape score used by the room confidence computation. -/
def shapeScore (shape : RoomShape) : ℚ :=
  if shape = RoomShape.rectangular then 1
  else if shape = RoomShape.l_shaped ∨ shape = RoomShape.t_shaped ∨
    shape = RoomShape.u_shaped then 85/100
  else 6/10

/-- Embedding of `RoomDetector._calculate_confidence`, including the final
`round(confidence, 3)`. -/
def calculate_confidence (area : ℚ) (bounds : ℤ × ℤ × ℤ × ℤ) (shape : RoomShape) : ℚ :=
  let rectangularity := shapeRectangularity area bounds
  let area_score := min 1 (area / MIN_CONFIDENCE_AREA)
  let shape_score := shapeScore shape
  let rect_score := min 1 (rectangularity / IDEAL_RECTANGULARITY)
  round3 (area_score * (3/10) + shape_score * (4/10) + rect_score * (3/10))

/-- Modelled from the spec: the confidence formula as the specification
states it, `0.3*area_score + 0.4*shape_score + 0.3*rect_score`, with no
rounding.  Kept separate from `calculate_confidence` (the source) so the
two can be compared. -/
def specConfidenceFormula (area : ℚ) (bounds : ℤ × ℤ × ℤ × ℤ) (shape : RoomShape) : ℚ :=
  let rectangularity := shapeRectangularity area bounds
  let area_score := min 1 (area / MIN_CONFIDENCE_AREA)
  let shape_score := shapeScore shape
  let rect_score := min 1 (rectangularity / IDEAL_RECTANGULARITY)
  (3/10) * area_score + (4/10) * shape_score + (3/10) * rect_score

/-! ### Stable sorting (Python `list.sort(key=..., reverse=True)`) -/

/-- Stable insert for descending area order: a later-created room is
placed after every existing room of greater-or-equal area. -/
def insertByAreaDesc (x : RoomContour) : List RoomContour → List RoomContour
  | [] => [x]
  | y :: ys => if x.area ≤ y.area then y :: insertByAreaDesc x ys else x :: y :: ys

/-- Stable descending-by-area sort, the model of
`rooms.sort(key=lambda r: r.area, reverse=True)`. -/
def sortByAreaDesc (rooms : List RoomContour) : List RoomContour :=
  rooms.foldl (fun acc r => insertByAreaDesc r acc) []

/-! ### Region segmentation pipeline

The `cv2.floodFill` scan of `_detect_rooms_flood_fill` discovers, in
raster-scan order, the maximal connected background regions of the filled
mask.  Each discovery is abstracted as a `Region`: the number of filled
pixels (`retval` of `cv2.floodFill`) together with the largest external
contour of the region mask (`max(contours, key=cv2.contourArea)` of
`cv2.findContours`), or `none` when `findContours` returns nothing.  The
scan itself (padding, mask bookkeeping, re-marking filled pixels) only
determines this discovery sequence and is claim-irrelevant. -/

/-- One flood-fill discovery: filled pixel count and extracted contour. -/
structure Region where
  filledArea : ℕ
  contour : Option (List Pt)
deriving DecidableEq

/-- One entry of the `cv2.findContours(RETR_TREE)` hierarchy used by the
contour strategy: the contour and whether it has a parent
(`hierarchy[0][i][3] >= 0`). -/
structure TreeContour where
  contour : List Pt
  hasParent : Bool
deriving DecidableEq

/-- Oracle bundle for one `RoomDetector.detect` call: image size, the
flood-fill discoveries on the filled mask, the contour hierarchy of the
inverted filled mask, and the two cv2 polygon primitives the pipeline
applies to contours (`approxPolyDP` with its perimeter-proportional
epsilon already folded in, and `arcLength`). -/
structure RoomOracle where
  W : ℕ
  H : ℕ
  regions : List Region
  tree : List TreeContour
  approx : List Pt → List Pt
  arc : List Pt → ℚ

/-- Room id string `room-<k>`, as produced by
`f"room-{self._room_counter}"`. -/
def mkRoomId (k : ℕ) : String := "room-" ++ Nat.repr k

/-- Embedding of `RoomDetector._create_single_room` (the source's
`Optional` return is never `None`).  Returns the room and the bumped
id counter. -/
def create_single_room (o : RoomOracle) (c : List Pt) (counter : ℕ) :
    RoomContour × ℕ :=
  let counter' := counter + 1
  let bounds := boundingRect c
  let area := contourArea c
  let vertices := o.approx c
  let shape := detect_shape vertices area bounds
  ({ id := mkRoomId counter'
     contour := c
     bounds := bounds
     center := calculateCenter c
     area := area
     perimeter := o.arc c
     shape := shape
     confidence := calculate_confidence area bounds shape
     vertices := vertices }, counter')

/-- Acceptance body of the flood-fill scan for one discovered region:
area window, aspect-ratio window and minimum rectangularity (the latter
computed from the *filled* pixel count), then room construction. -/
def floodStep (o : RoomOracle) (acc : List RoomContour × ℕ) (reg : Region) :
    List RoomContour × ℕ :=
  let imageArea : ℚ := (o.W : ℚ) * (o.H : ℚ)
  let minArea := max MIN_ROOM_AREA (imageArea * MIN_ROOM_AREA_REL)
  let maxArea := imageArea * MAX_ROOM_AREA_REL
  if minArea ≤ (reg.filledArea : ℚ) ∧ (reg.filledArea : ℚ) ≤ maxArea then
    match reg.contour with
    | none => acc
    | some c =>
      let b := boundingRect c
      let w := b.2.2.1
      let h := b.2.2.2
      if 0 < h ∧ 0 < w then
        if MIN_ASPECT_REL ≤ (w : ℚ) / (h : ℚ) ∧ (w : ℚ) / (h : ℚ) ≤ MAX_ASPECT_REL then
          if MIN_RECTANGULARITY ≤ (reg.filledArea : ℚ) / ((w * h : ℤ) : ℚ) then
            let rc := create_single_room o c acc.2
            (acc.1 ++ [rc.1], rc.2)
          else acc
        else acc
      else acc
  else acc

/-- Embedding of `RoomDetector._detect_rooms_flood_fill`: fold the
acceptance body over the discoveries in scan order, then sort by area,
largest first. -/
def detect_rooms_flood_fill (o : RoomOracle) (counter : ℕ) :
    List RoomContour × ℕ :=
  let rc := o.regions.foldl (floodStep o) ([], counter)
  (sortByAreaDesc rc.1, rc.2)

/-- Embedding of `RoomDetector._find_contours`: keep hierarchy entries
with area ≥ 1000 that either have a parent or do not touch the image
border (margin 3). -/
def find_contours (o : RoomOracle) : List (List Pt) :=
  (o.tree.filter fun tc =>
    let b := boundingRect tc.contour
    let touches_edge := b.1 ≤ 3 ∨ b.2.1 ≤ 3 ∨
      (o.W : ℤ) - 3 ≤ b.1 + b.2.2.1 ∨ (o.H : ℤ) - 3 ≤ b.2.1 + b.2.2.2
    decide (¬ contourArea tc.contour < 1000 ∧ (tc.hasParent = true ∨ ¬ touches_edge))).map
    (fun tc => tc.contour)

/-- Embedding of `RoomDetector._filter_contours`: area window, then
aspect-ratio window (only when both bounding sides are positive), then
minimum rectangularity (only when the bounding rectangle has positive
area), this time computed from the contour area. -/
def filter_contours (contours : List (List Pt)) (imageArea : ℚ) : List (List Pt) :=
  contours.filter fun c =>
    let area := contourArea c
    let minArea := max MIN_ROOM_AREA (imageArea * MIN_ROOM_AREA_REL)
    let maxArea := imageArea * MAX_ROOM_AREA_REL
    let b := boundingRect c
    let w := b.2.2.1
    let h := b.2.2.2
    decide (¬ area < minArea ∧ ¬ maxArea < area ∧
      (0 < h ∧ 0 < w → MIN_ASPECT_REL ≤ (w : ℚ) / (h : ℚ) ∧ (w : ℚ) / (h : ℚ) ≤ MAX_ASPECT_REL) ∧
      (0 < w * h → MIN_RECTANGULARITY ≤ area / ((w * h : ℤ) : ℚ)))

/-- Embedding of `RoomDetector._create_rooms`: build a room for every
filtered contour (threading the id counter), then sort by area,
largest first. -/
def create_rooms (o : RoomOracle) (contours : List (List Pt)) (counter : ℕ) :
    List RoomContour × ℕ :=
  let rc := contours.foldl
    (fun acc c =>
      let r := create_single_room o c acc.2
      (acc.1 ++ [r.1], r.2))
    ([], counter)
  (sortByAreaDesc rc.1, rc.2)

/-- Result of room detection (`RoomDetectionResult`; the two debug images
are omitted — they carry no claim-relevant data). -/
structure RoomDetectionResult where
  rooms : List RoomContour
  image_size : ℕ × ℕ
  total_room_area : ℚ
deriving DecidableEq

/-- Embedding of `RoomDetector.detect`.  The incoming detector state
`counter0` (`self._room_counter` left over from a previous call) is reset
to `0` first, exactly as the source does; the final detector state is
returned alongside the result. -/
def roomDetect (o : RoomOracle) (counter0 : ℕ) : RoomDetectionResult × ℕ :=
  let c0 := 0
  let fl := detect_rooms_flood_fill o c0
  let roomsA := fl.1
  let sel :=
    if roomsA.length < 2 then
      let contours := find_contours o
      let filtered := filter_contours contours ((o.W : ℚ) * (o.H : ℚ))
      let cr := create_rooms o filtered fl.2
      if roomsA.length < cr.1.length then cr else (roomsA, cr.2)
    else (roomsA, fl.2)
  ({ rooms := sel.1
     image_size := (o.W, o.H)
     total_room_area := (sel.1.map RoomContour.area).sum }, sel.2)

/-! ### Wall detection data model (`wall_detection.py`) -/

/-- Wall classification (`WallType`). -/
inductive WallType
  | exterior
  | interior
  | unknown
deriving DecidableEq

/-- Detected wall segment (`WallSegment`; the source field `end` is
renamed `endp`, `end` being reserved in Lean). -/
structure WallSegment where
  start : Pt
  endp : Pt
  thickness : ℚ
  wall_type : WallType
  confidence : ℝ

/-! ### Line bucketing and merging (`WallDetector._merge_lines`)

The source computes `angle = degrees(arctan2(dy, dx)) % 180` and buckets
by `angle < 15 or angle > 165` (horizontal) and `75 < angle < 105`
(vertical).  For integer `(dx, dy)` with `dx ≠ 0` these tests on the
direction angle are equivalent to the exact slope comparisons
`|dy| < tan 15° * |dx|` resp. `|dy| > tan 75° * |dx|`, where
`tan 15° = 2 - sqrt 3` and `tan 75° = 2 + sqrt 3`; with
`t = 2*|dx| - |dy|` resp. `s = |dy| - 2*|dx|` those are in turn the
integer conditions `0 < t ∧ 3*dx^2 < t^2` resp. `0 < s ∧ 3*dx^2 < s^2`
embedded below.  `dx = 0` gives angle 90 (vertical) unless also `dy = 0`,
where `arctan2(0, 0) = 0` (horizontal). -/

/-- Strict horizontal-bucket condition (`angle < 15 or angle > 165`). -/
def horizStrict (dx dy : ℤ) : Prop :=
  (dx = 0 ∧ dy = 0) ∨
  (dx ≠ 0 ∧ 0 < 2 * |dx| - |dy| ∧ 3 * dx ^ 2 < (2 * |dx| - |dy|) ^ 2)

/-- Strict vertical-bucket condition (`75 < angle < 105`). -/
def vertStrict (dx dy : ℤ) : Prop :=
  (dx = 0 ∧ dy ≠ 0) ∨
  (dx ≠ 0 ∧ 0 < |dy| - 2 * |dx| ∧ 3 * dx ^ 2 < (|dy| - 2 * |dx|) ^ 2)

instance (dx dy : ℤ) : Decidable (horizStrict dx dy) := by
  unfold horizStrict; infer_instance

instance (dx dy : ℤ) : Decidable (vertStrict dx dy) := by
  unfold vertStrict; infer_instance

/-- Relaxed horizontal condition, the claim's `angle ≤ 15 or angle ≥ 165`
(non-strict at the band boundary). -/
def horizRelaxed (dx dy : ℤ) : Prop :=
  (dx = 0 ∧ dy = 0) ∨
  (dx ≠ 0 ∧ 0 ≤ 2 * |dx| - |dy| ∧ 3 * dx ^ 2 ≤ (2 * |dx| - |dy|) ^ 2)

/-- Relaxed vertical condition, the claim's `75 ≤ angle ≤ 105`. -/
def vertRelaxed (dx dy : ℤ) : Prop :=
  (dx = 0 ∧ dy ≠ 0) ∨
  (dx ≠ 0 ∧ 0 ≤ |dy| - 2 * |dx| ∧ 3 * dx ^ 2 ≤ (|dy| - 2 * |dx|) ^ 2)

/-- Orientation bucket of the line merger. -/
inductive LineBucket
  | horizontal
  | vertical
  | diagonal
deriving DecidableEq

/-- Bucket assignment for one raw segment, mirroring the source's
`if angle < 15 or angle > 165 ... elif 75 < angle < 105 ... else` chain. -/
def lineBucket (l : LineSeg) : LineBucket :=
  let dx := l.2.2.1 - l.1
  let dy := l.2.2.2 - l.2.1
  if horizStrict dx dy then LineBucket.horizontal
  else if vertStrict dx dy then LineBucket.vertical
  else LineBucket.diagonal

/-- Embedding of `WallDetector._should_merge`. -/
def should_merge (l1 l2 : LineSeg) (is_horizontal : Bool) : Prop :=
  if is_horizontal then
    ¬ 20 < |((l2.2.1 : ℚ) + (l2.2.2.2 : ℚ)) / 2 - ((l1.2.1 : ℚ) + (l1.2.2.2 : ℚ)) / 2| ∧
    max (min l1.1 l1.2.2.1) (min l2.1 l2.2.2.1) -
      min (max l1.1 l1.2.2.1) (max l2.1 l2.2.2.1) < 30
  else
    ¬ 20 < |((l2.1 : ℚ) + (l2.2.2.1 : ℚ)) / 2 - ((l1.1 : ℚ) + (l1.2.2.1 : ℚ)) / 2| ∧
    max (min l1.2.1 l1.2.2.2) (min l2.2.1 l2.2.2.2) -
      min (max l1.2.1 l1.2.2.2) (max l2.2.1 l2.2.2.2) < 30

instance (l1 l2 : LineSeg) (b : Bool) : Decidable (should_merge l1 l2 b) := by
  unfold should_merge; infer_instance

/-- Embedding of `WallDetector._merge_line_group`. -/
def merge_line_group (lines : List LineSeg) (is_horizontal : Bool) : LineSeg :=
  match lines with
  | [] => (0, 0, 0, 0)
  | [l] => l
  | l :: ls =>
    if is_horizontal then
      let avg_y := truncQ ((((l :: ls).map fun m =>
        ((m.2.1 : ℚ) + (m.2.2.2 : ℚ)) / 2).sum) / (((l :: ls).length : ℚ)))
      let min_x := ls.foldl (fun a m => min a (min m.1 m.2.2.1)) (min l.1 l.2.2.1)
      let max_x := ls.foldl (fun a m => max a (max m.1 m.2.2.1)) (max l.1 l.2.2.1)
      (min_x, avg_y, max_x, avg_y)
    else
      let avg_x := truncQ ((((l :: ls).map fun m =>
        ((m.1 : ℚ) + (m.2.2.1 : ℚ)) / 2).sum) / (((l :: ls).length : ℚ)))
      let min_y := ls.foldl (fun a m => min a (min m.2.1 m.2.2.2)) (min l.2.1 l.2.2.2)
      let max_y := ls.foldl (fun a m => max a (max m.2.1 m.2.2.2)) (max l.2.1 l.2.2.2)
      (avg_x, min_y, avg_x, max_y)

/-- Sort key of `_merge_parallel_lines`: mean perpendicular coordinate. -/
def perpKey (is_horizontal : Bool) (l : LineSeg) : ℚ :=
  if is_horizontal then ((l.2.1 : ℚ) + (l.2.2.2 : ℚ)) / 2
  else ((l.1 : ℚ) + (l.2.2.1 : ℚ)) / 2

/-- Stable ascending insertion by a rational key (Python `sorted`). -/
def insertAscLine (key : LineSeg → ℚ) (x : LineSeg) : List LineSeg → List LineSeg
  | [] => [x]
  | y :: ys => if key y ≤ key x then y :: insertAscLine key x ys else x :: y :: ys

/-- Stable ascending sort by a rational key (Python `sorted`). -/
def sortAscLine (key : LineSeg → ℚ) (l : List LineSeg) : List LineSeg :=
  l.foldl (fun acc x => insertAscLine key x acc) []

/-- Sweep of `_merge_parallel_lines`: extend the current group while the
incoming segment merges with the group's last member, otherwise close the
group. -/
def sweepGroups (is_horizontal : Bool) : List LineSeg → List LineSeg → List (List LineSeg)
  | group, [] => [group]
  | group, l :: ls =>
    if should_merge (group.getLastD (0, 0, 0, 0)) l is_horizontal then
      sweepGroups is_horizontal (group ++ [l]) ls
    else group :: sweepGroups is_horizontal [l] ls

/-- Embedding of `WallDetector._merge_parallel_lines`. -/
def merge_parallel_lines (lines : List LineSeg) (is_horizontal : Bool) : List LineSeg :=
  match sortAscLine (perpKey is_horizontal) lines with
  | [] => []
  | l :: ls => (sweepGroups is_horizontal [l] ls).map (merge_line_group · is_horizontal)

/-- Partition step of `_merge_lines`: append the segment to its bucket. -/
def bucketStep (acc : List LineSeg × List LineSeg × List LineSeg) (l : LineSeg) :
    List LineSeg × List LineSeg × List LineSeg :=
  match lineBucket l with
  | LineBucket.horizontal => (acc.1 ++ [l], acc.2.1, acc.2.2)
  | LineBucket.vertical => (acc.1, acc.2.1 ++ [l], acc.2.2)
  | LineBucket.diagonal => (acc.1, acc.2.1, acc.2.2 ++ [l])

/-- Embedding of `WallDetector._merge_lines`: partition into the three
orientation buckets in input order, merge the two axis-aligned buckets,
pass diagonals through unchanged. -/
def mergeLines (lines : List LineSeg) : List LineSeg :=
  if lines.isEmpty then []
  else
    let buckets := lines.foldl bucketStep ([], [], [])
    merge_parallel_lines buckets.1 true ++ merge_parallel_lines buckets.2.1 false ++ buckets.2.2

/-! ### Wall classification (`WallDetector._classify_wall`) -/

/-- Near-edge test: any endpoint coordinate within `EXTERIOR_MARGIN = 50`
of the image border. -/
def near_edge (l : LineSeg) (size : ℕ × ℕ) : Prop :=
  min l.1 l.2.2.1 < 50 ∨ (size.1 : ℤ) - 50 < max l.1 l.2.2.1 ∨
  min l.2.1 l.2.2.2 < 50 ∨ (size.2 : ℤ) - 50 < max l.2.1 l.2.2.2

instance (l : LineSeg) (size : ℕ × ℕ) : Decidable (near_edge l size) := by
  unfold near_edge; infer_instance

/-- Midpoint-to-boundary-point proximity: the source tests
`sqrt(d2) < margin` with `margin = 50`; for `d2 ≥ 0` this is exactly
`d2 < 2500`, embedded below. -/
def midDistLt (l : LineSeg) (p : Pt) : Prop :=
  (((l.1 : ℚ) + (l.2.2.1 : ℚ)) / 2 - (p.1 : ℚ)) ^ 2 +
    (((l.2.1 : ℚ) + (l.2.2.2 : ℚ)) / 2 - (p.2 : ℚ)) ^ 2 < 2500

instance (l : LineSeg) (p : Pt) : Decidable (midDistLt l p) := by
  unfold midDistLt; infer_instance

/-- Near-exterior-boundary test (`if exterior_boundary:` is false both for
`None` and for an empty list; `min_dist < margin` over a nonempty list is
an existential). -/
def near_boundary (l : LineSeg) (boundary : Option (List Pt)) : Prop :=
  match boundary with
  | none => False
  | some ps => ps ≠ [] ∧ ∃ p ∈ ps, midDistLt l p

instance (l : LineSeg) (boundary : Option (List Pt)) : Decidable (near_boundary l boundary) := by
  unfold near_boundary
  match boundary with
  | none => exact inferInstanceAs (Decidable False)
  | some ps => exact inferInstanceAs (Decidable (_ ∧ _))

/-- Embedding of `WallDetector._classify_wall`. -/
def classify_wall (l : LineSeg) (boundary : Option (List Pt)) (size : ℕ × ℕ) : WallType :=
  if near_edge l size then WallType.exterior
  else if near_boundary l boundary then WallType.exterior
  else WallType.interior

/-! ### Thickness estimation (`WallDetector._estimate_thickness`)

The per-sample perpendicular scan probes the binary raster at the
truncated coordinates `int(px ± d*perp_x), int(py ± d*perp_y)`; the
probed outcome (out of bounds / background / wall pixel) is abstracted as
an oracle `ℕ → ProbeRes` per sample point and signed direction — the
claims about thickness depend only on the scan's loop structure, never on
which pixels are probed. -/

/-- Outcome of probing the raster one step further along the
perpendicular. -/
inductive ProbeRes
  | oob
  | bg
  | wall
deriving DecidableEq

/-- Scan loop `for d in range(1, 50)`: stop with `0` when leaving the
image or exhausting the range, stop with `d` at the first background
pixel. -/
def scanAux (p : ℕ → ProbeRes) : ℕ → ℕ → ℕ
  | 0, _ => 0
  | fuel + 1, d =>
    if 50 ≤ d then 0
    else
      match p d with
      | ProbeRes.oob => 0
      | ProbeRes.bg => d
      | ProbeRes.wall => scanAux p fuel (d + 1)

/-- One direction of `_measure_thickness_at_point` (`max_search = 50`). -/
def scanDist (p : ℕ → ProbeRes) : ℕ := scanAux p 50 1

/-- Embedding of `WallDetector._measure_thickness_at_point`: sum of the
two directed scan distances. -/
def measure_thickness_at_point (pos neg : ℕ → ProbeRes) : ℚ :=
  ((scanDist pos + scanDist neg : ℕ) : ℚ)

/-- Stable ascending insertion on `ℚ` (for `np.median`'s internal sort). -/
def insertAscQ (x : ℚ) : List ℚ → List ℚ
  | [] => [x]
  | y :: ys => if y ≤ x then y :: insertAscQ x ys else x :: y :: ys

/-- Ascending sort on `ℚ`. -/
def sortAscQ (l : List ℚ) : List ℚ := l.foldl (fun acc x => insertAscQ x acc) []

/-- Model of `np.median`: middle element of the sorted list, or the mean
of the two middle elements for even length (never called on `[]`). -/
def npMedian (l : List ℚ) : ℚ :=
  let s := sortAscQ l
  let n := s.length
  if n % 2 = 1 then s.getD (n / 2) 0
  else (s.getD (n / 2 - 1) 0 + s.getD (n / 2) 0) / 2

/-- `THICKNESS_SAMPLE_POINTS = 5`. -/
def THICKNESS_SAMPLE_POINTS : ℕ := 5

/-- `DEFAULT_WALL_THICKNESS = 10.0`. -/
def DEFAULT_WALL_THICKNESS : ℚ := 10

/-- Embedding of `WallDetector._estimate_thickness`.  `probe i neg d` is
the raster probe for sample point `i`, direction sign `neg`, distance
`d`; the zero-length guard `if length == 0` is the exact test
`dx^2 + dy^2 = 0`. -/
def estimate_thickness (probe : ℕ → Bool → ℕ → ProbeRes) (l : LineSeg) : ℚ :=
  let dx := l.2.2.1 - l.1
  let dy := l.2.2.2 - l.2.1
  if dx ^ 2 + dy ^ 2 = 0 then DEFAULT_WALL_THICKNESS
  else
    let ts := ((List.range THICKNESS_SAMPLE_POINTS).map fun i =>
      measure_thickness_at_point (probe i false) (probe i true)).filter
      fun t => decide (0 < t)
    if ts = [] then DEFAULT_WALL_THICKNESS else npMedian ts

/-! ### Wall confidence (`WallDetector._calculate_confidence`) -/

/-- Thickness plausibility score: `1` inside the ideal band `[5, 30]`,
linear fall-off outside. -/
def thickness_score (t : ℚ) : ℚ :=
  if 5 ≤ t ∧ t ≤ 30 then 1
  else if t < 5 then t / 5
  else max (1/2) (1 - (t - 30) / 50)

/-- Embedding of `WallDetector._calculate_confidence` for a wall segment
of (irrational) length `length` and thickness `t`. -/
noncomputable def wall_calculate_confidence (length : ℝ) (t : ℚ) : ℝ :=
  let length_score := min 1 (length / 100)
  (length_score + ((thickness_score t : ℚ) : ℝ)) / 2

/-! ### Wall segment creation and the wall pipeline -/

/-- Embedding of `WallDetector._create_wall_segments`.  The length filter
`sqrt(dx^2+dy^2) < MIN_WALL_LENGTH` (= 30) is embedded as the exact test
`dx^2 + dy^2 < 900` (bridging lemma `sqrt_lt_thirty_iff`). -/
noncomputable def create_wall_segments (lines : List LineSeg)
    (probe : LineSeg → ℕ → Bool → ℕ → ProbeRes)
    (boundary : Option (List Pt)) (size : ℕ × ℕ) : List WallSegment :=
  lines.filterMap fun l =>
    let dx := l.2.2.1 - l.1
    let dy := l.2.2.2 - l.2.1
    if dx ^ 2 + dy ^ 2 < 900 then none
    else
      let t := estimate_thickness (probe l) l
      some { start := (l.1, l.2.1)
             endp := (l.2.2.1, l.2.2.2)
             thickness := t
             wall_type := classify_wall l boundary size
             confidence := wall_calculate_confidence (Real.sqrt ((dx ^ 2 + dy ^ 2 : ℤ) : ℝ)) t }

/-- Embedding of `WallDetector._detect_lines`: `cv2.HoughLinesP` output
(`none` models the `None` return when no accumulator maximum exceeds the
vote threshold) is turned into a plain list; `None` becomes `[]`. -/
def detect_lines (hough : Option (List LineSeg)) : List LineSeg :=
  match hough with
  | none => []
  | some ls => ls

/-- Result of wall detection (`WallDetectionResult`; the two debug images
are omitted — they carry no claim-relevant data). -/
structure WallDetectionResult where
  walls : List WallSegment
  image_size : ℕ × ℕ
  exterior_boundary : Option (List Pt)

/-- Embedding of `WallDetector.detect` from the line-detection stage on:
the binarization/morphology/Canny stages only produce the edge image and
binary raster feeding the oracles (`hough` = `cv2.HoughLinesP` output,
`probe` = raster probes of the thickness scan, `boundary` =
`_find_exterior_boundary` output). -/
noncomputable def wallDetect (hough : Option (List LineSeg))
    (probe : LineSeg → ℕ → Bool → ℕ → ProbeRes)
    (boundary : Option (List Pt)) (size : ℕ × ℕ) : WallDetectionResult :=
  let lines := detect_lines hough
  let merged := mergeLines lines
  { walls := create_wall_segments merged probe boundary size
    image_size := size
    exterior_boundary := boundary }

/-- Invariant for room-id bookkeeping: the ids of the accumulated rooms
are `room-k` for a strictly increasing sequence of counters bounded by
the current counter value. -/
def goodIds (rooms : List RoomContour) (c : ℕ) : Prop :=
  ∃ ks : List ℕ, rooms.map RoomContour.id = ks.map mkRoomId ∧
    ks.Chain' (fun a b => a < b) ∧ ∀ k ∈ ks, k ≤ c

/-- Concrete flood-fill discovery: a 100×80 region found first in scan
order (filled pixel count 6000). -/
def cexRegionA : Region := ⟨6000, some [(0, 0), (99, 0), (99, 79), (0, 79)]⟩

/-- Concrete flood-fill discovery: a 120×100 region found second in scan
order (filled pixel count 10000), larger than the first. -/
def cexRegionB : Region := ⟨10000, some [(0, 0), (119, 0), (119, 99), (0, 99)]⟩

/-- Concrete 200×200 detection run in which a small room is discovered
before a large one. -/
def cexOracle : RoomOracle := ⟨200, 200, [cexRegionA, cexRegionB], [], id, fun _ => 0⟩

/-! ### Support for the room-invariant claim (Claim C8)

The flood-fill and contour oracles are constrained by the documented
geometry of the OpenCV primitives they abstract:

* `cv2.findContours` runs on a mask of the image's size, so every point
  of an extracted contour is a pixel coordinate of the image grid,
  `0 ≤ x ≤ W - 1` and `0 ≤ y ≤ H - 1`;
* the traced boundary curve passes through pixel centers and winds at
  most once around any point, and it lies inside the bounding box of its
  own vertices, whose geometric extent is `(w - 1) × (h - 1)`; its
  polygon area is therefore at most `(w - 1) * (h - 1)`.

No relation between the polygon area and the region's pixel count holds
in general, and none is assumed: a region with an interior wall island
has contour area above its pixel count (the external contour encloses
the island), while a one-pixel-wide serpentine region has thousands of
pixels and a degenerate external contour of polygon area `0` (the trace
retraces itself).  These facts are taken as hypotheses on the oracle
inputs. -/

theorem digitChar_toNat : ∀ d : ℕ, d < 10 → (Nat.digitChar d).toNat = 48 + d := by decide

theorem toDigitsCore_append (b : ℕ) :
    ∀ (fuel n : ℕ) (ds : List Char),
      Nat.toDigitsCore b fuel n ds = Nat.toDigitsCore b fuel n [] ++ ds := by
  intro fuel
  induction fuel with
  | zero => intro n ds; simp [Nat.toDigitsCore]
  | succ f ih =>
    intro n ds
    simp only [Nat.toDigitsCore]
    by_cases h : n / b = 0
    · simp [h]
    · simp only [h, if_false]
      rw [ih (n / b) (Nat.digitChar (n % b) :: ds), ih (n / b) [Nat.digitChar (n % b)]]
      simp

theorem chListVal_append_singleton (l : List Char) (c : Char) :
    chListVal (l ++ [c]) = 10 * chListVal l + (c.toNat - 48) := by
  simp [chListVal, List.foldl_append]

theorem chListVal_toDigitsCore :
    ∀ (fuel n : ℕ), n < fuel → chListVal (Nat.toDigitsCore 10 fuel n []) = n := by
  intro fuel
  induction fuel with
  | zero => intro n h; omega
  | succ f ih =>
    intro n h
    simp only [Nat.toDigitsCore]
    by_cases h0 : n / 10 = 0
    · have hn : n < 10 := by omega
      have hmod : n % 10 = n := Nat.mod_eq_of_lt hn
      simp [h0, chListVal, hmod, digitChar_toNat n hn]
    · have hpos : 0 < n := by
        rcases Nat.eq_zero_or_pos n with h1 | h1
        · exfalso; apply h0; simp [h1]
        · exact h1
      have hlt : n / 10 < n := Nat.div_lt_self hpos (by norm_num)
      have hfuel : n / 10 < f := by omega
      simp only [h0, if_false]
      rw [toDigitsCore_append 10 f (n / 10) [Nat.digitChar (n % 10)]]
      rw [chListVal_append_singleton, ih (n / 10) hfuel,
        digitChar_toNat (n % 10) (Nat.mod_lt n (by norm_num))]
      omega

theorem natRepr_injective : Function.Injective Nat.repr := by
  intro a b h
  have hd : Nat.toDigits 10 a = Nat.toDigits 10 b := by
    have := congrArg String.data h
    simpa [Nat.repr, List.asString] using this
  have ha := chListVal_toDigitsCore (a + 1) a (Nat.lt_succ_self a)
  have hb := chListVal_toDigitsCore (b + 1) b (Nat.lt_succ_self b)
  simp only [Nat.toDigits] at hd
  rw [← ha, ← hb, hd]

/-! ### Claim theorems -/

/-- Claim C1: the segmenter always computes the flood-fill result
(Strategy A) first; the contour-hierarchy result (Strategy B) is consulted
only when Strategy A yields fewer than 2 rooms, and then the final rooms
are Strategy B's exactly when it produced strictly more rooms — ties keep
Strategy A. -/
theorem c1_fallback_policy (o : RoomOracle) (counter0 : ℕ) :
    (roomDetect o counter0).1.rooms =
      (let fl := detect_rooms_flood_fill o 0
       let roomsB := (create_rooms o
         (filter_contours (find_contours o) ((o.W : ℚ) * (o.H : ℚ))) fl.2).1
       if fl.1.length < 2 then
         if fl.1.length < roomsB.length then roomsB else fl.1
       else fl.1) := by
  simp only [roomDetect]
  by_cases h : (detect_rooms_flood_fill o 0).1.length < 2
  · simp only [h, if_true]
    by_cases h2 : (detect_rooms_flood_fill o 0).1.length <
        (create_rooms o (filter_contours (find_contours o) ((o.W : ℚ) * (o.H : ℚ)))
          (detect_rooms_flood_fill o 0).2).1.length
    · simp [h2]
    · simp [h2]
  · simp [h]

/-- Claim C5: the pipeline is deterministic and carries no state between
runs: the room result is independent of the detector's leftover id
counter (which `detect` resets), a second run on the same input equals the
first, and the wall pipeline is a pure function of its input. -/
theorem c5_determinism (o : RoomOracle) (c1 c2 : ℕ)
    (hough : Option (List LineSeg)) (probe : LineSeg → ℕ → Bool → ℕ → ProbeRes)
    (boundary : Option (List Pt)) (size : ℕ × ℕ) :
    roomDetect o c1 = roomDetect o c2 ∧
    (roomDetect o (roomDetect o c1).2).1 = (roomDetect o c1).1 ∧
    wallDetect hough probe boundary size = wallDetect hough probe boundary size :=
  ⟨rfl, rfl, rfl⟩

/-- Claim C9: when the Hough accumulator yields no maxima
(`cv2.HoughLinesP` returns `None`), line detection returns `[]` rather
than failing, the empty list propagates through merging into an empty
wall list, and an oracle with no discovered regions and no hierarchy
yields an empty room list — empty outcomes are ordinary values. -/
theorem c9_empty_results (probe : LineSeg → ℕ → Bool → ℕ → ProbeRes)
    (boundary : Option (List Pt)) (size : ℕ × ℕ)
    (W H : ℕ) (approx : List Pt → List Pt) (arc : List Pt → ℚ) (c : ℕ) :
    detect_lines none = [] ∧
    mergeLines [] = [] ∧
    (wallDetect none probe boundary size).walls = [] ∧
    (roomDetect ⟨W, H, [], [], approx, arc⟩ c).1.rooms = [] :=
  ⟨rfl, rfl, rfl, rfl⟩

/-- Claim C10: the classifier returns `exterior` exactly when the segment
is near the image edge or its midpoint is within the margin of the
exterior boundary, `interior` otherwise, and the `unknown` member is never
assigned: every wall segment the pipeline produces is exterior or
interior. -/
theorem c10_wall_type_never_unknown (l : LineSeg) (lines : List LineSeg)
    (probe : LineSeg → ℕ → Bool → ℕ → ProbeRes)
    (boundary : Option (List Pt)) (size : ℕ × ℕ) :
    classify_wall l boundary size ≠ WallType.unknown ∧
    (classify_wall l boundary size = WallType.exterior ↔
      near_edge l size ∨ near_boundary l boundary) ∧
    (classify_wall l boundary size = WallType.interior ↔
      ¬ (near_edge l size ∨ near_boundary l boundary)) ∧
    ((create_wall_segments lines probe boundary size).all
      fun w => decide (w.wall_type ≠ WallType.unknown)) = true := by
  refine ⟨?_, ?_, ?_, ?_⟩
  · unfold classify_wall
    split_ifs <;> simp
  · unfold classify_wall
    split_ifs with h1 h2 <;> simp_all
  · unfold classify_wall
    split_ifs with h1 h2 <;> simp_all
  · rw [List.all_eq_true]
    intro w hw
    rw [create_wall_segments, List.mem_filterMap] at hw
    obtain ⟨m, _, hm⟩ := hw
    by_cases hlen : (m.2.2.1 - m.1) ^ 2 + (m.2.2.2 - m.2.1) ^ 2 < 900
    · simp [hlen] at hm
    · simp only [hlen, if_false] at hm
      have : w.wall_type = classify_wall m boundary size := by
        rw [← Option.some_inj] at hm
        cases hm
        rfl
      rw [decide_eq_true_iff, this]
      unfold classify_wall
      split_ifs <;> simp

/-- Claim C2: shape classification follows the priority chain: rectangular
iff 4 simplified vertices and rectangularity ≥ 0.70; failing that,
l-shaped iff 5–8 vertices, rectangularity in [0.45, 0.85] and at least 4
near-right interior angles; failing that, t-shaped iff 7–10 vertices,
rectangularity in [0.45, 0.80] and at least 6 right angles; failing that,
u-shaped iff 7–10 vertices, rectangularity in [0.50, 0.85] and at least 6
right angles; otherwise irregular. -/
theorem c2_shape_priority (v : List Pt) (area : ℚ) (bounds : ℤ × ℤ × ℤ × ℤ) :
    (detect_shape v area bounds = RoomShape.rectangular ↔
      (v.length = 4 ∧ 70/100 ≤ shapeRectangularity area bounds)) ∧
    (detect_shape v area bounds = RoomShape.l_shaped ↔
      (¬ (v.length = 4 ∧ 70/100 ≤ shapeRectangularity area bounds) ∧
       (5 ≤ v.length ∧ v.length ≤ 8) ∧
       (45/100 ≤ shapeRectangularity area bounds ∧
        shapeRectangularity area bounds ≤ 85/100) ∧
       4 ≤ countRightAngles v)) ∧
    (detect_shape v area bounds = RoomShape.t_shaped ↔
      (¬ (v.length = 4 ∧ 70/100 ≤ shapeRectangularity area bounds) ∧
       ¬ is_l_shaped v (shapeRectangularity area bounds) ∧
       (7 ≤ v.length ∧ v.length ≤ 10) ∧
       (45/100 ≤ shapeRectangularity area bounds ∧
        shapeRectangularity area bounds ≤ 80/100) ∧
       6 ≤ countRightAngles v)) ∧
    (detect_shape v area bounds = RoomShape.u_shaped ↔
      (¬ (v.length = 4 ∧ 70/100 ≤ shapeRectangularity area bounds) ∧
       ¬ is_l_shaped v (shapeRectangularity area bounds) ∧
       ¬ is_t_shaped v (shapeRectangularity area bounds) ∧
       (7 ≤ v.length ∧ v.length ≤ 10) ∧
       (50/100 ≤ shapeRectangularity area bounds ∧
        shapeRectangularity area bounds ≤ 85/100) ∧
       6 ≤ countRightAngles v)) ∧
    (detect_shape v area bounds = RoomShape.irregular ↔
      (¬ (v.length = 4 ∧ 70/100 ≤ shapeRectangularity area bounds) ∧
       ¬ is_l_shaped v (shapeRectangularity area bounds) ∧
       ¬ is_t_shaped v (shapeRectangularity area bounds) ∧
       ¬ is_u_shaped v (shapeRectangularity area bounds))) := by
  simp only [detect_shape, RECTANGULAR_THRESHOLD, is_l_shaped, is_t_shaped, is_u_shaped]
  split_ifs with h1 h2 h3 h4 <;>
    refine ⟨?_, ?_, ?_, ?_, ?_⟩ <;>
    constructor <;>
    intro hx <;>
    simp_all <;>
    first
    | tauto
    | omega
    | linarith

/-- Claim C4, counterexample: for the realistic accepted room with contour
area 7821, bounding rectangle 100×80 and shape `rectangular`, the computed
confidence is `round(0.85642, 3) = 0.856`, which differs from the claimed
exact weighted sum `0.85642`. -/
theorem c4_counterexample :
    calculate_confidence 7821 (0, 0, 100, 80) RoomShape.rectangular ≠
      specConfidenceFormula 7821 (0, 0, 100, 80) RoomShape.rectangular := by
  have hshape : shapeScore RoomShape.rectangular = 1 := by
    simp [shapeScore]
  have hrect : shapeRectangularity 7821 (0, 0, 100, 80) = 7821/8000 := by
    norm_num [shapeRectangularity]
  have hspec : specConfidenceFormula 7821 (0, 0, 100, 80) RoomShape.rectangular
      = 42821/50000 := by
    simp only [specConfidenceFormula, hshape, hrect, MIN_CONFIDENCE_AREA,
      IDEAL_RECTANGULARITY]
    rw [min_eq_right (by norm_num), min_eq_left (by norm_num)]
    norm_num
  have hfloor : ⌊(42821/50000 : ℚ) * 1000⌋ = 856 := by
    rw [Int.floor_eq_iff]
    norm_num
  have hcalc : calculate_confidence 7821 (0, 0, 100, 80) RoomShape.rectangular
      = 107/125 := by
    simp only [calculate_confidence, hshape, hrect, MIN_CONFIDENCE_AREA,
      IDEAL_RECTANGULARITY]
    rw [min_eq_right (by norm_num), min_eq_left (by norm_num)]
    have hin : (7821/15000 : ℚ) * (3 / 10) + 1 * (4 / 10) + 1 * (3 / 10)
        = 42821/50000 := by norm_num
    rw [hin, round3, roundHalfEven]
    simp only [hfloor]
    norm_num
  rw [hspec, hcalc]
  norm_num

/-- Claim C4, amended: the computed confidence equals the spec's weighted
sum `0.3*area_score + 0.4*shape_score + 0.3*rect_score` rounded to three
decimal places (Python `round(·, 3)`, nearest with ties to even). -/
theorem c4_amended (area : ℚ) (bounds : ℤ × ℤ × ℤ × ℤ) (shape : RoomShape) :
    calculate_confidence area bounds shape =
      round3 (specConfidenceFormula area bounds shape) := by
  simp only [calculate_confidence, specConfidenceFormula]
  ring_nf

/-! ### Support lemmas for the angle buckets (Claim C6) -/

/-- No integer vector sits exactly on an angle-band boundary: `a^2 = 3*b^2`
has no integer solution with `b ≠ 0` (irrationality of `sqrt 3`, i.e. of
`tan 60°`; the band boundaries 15°, 75°, 105°, 165° reduce to this). -/
theorem sq_ne_three_mul_sq (a b : ℤ) (hb : b ≠ 0) : a ^ 2 ≠ 3 * b ^ 2 := by
  intro h
  have h3 : Irrational (Real.sqrt 3) := by
    simpa using (Nat.prime_three).irrational_sqrt
  refine h3 ⟨|(a : ℚ) / (b : ℚ)|, ?_⟩
  have hb0 : (b : ℝ) ≠ 0 := Int.cast_ne_zero.mpr hb
  have key : ((a : ℝ) / (b : ℝ)) ^ 2 = 3 := by
    rw [div_pow, div_eq_iff (pow_ne_zero 2 hb0)]
    exact_mod_cast congrArg (fun z : ℤ => (z : ℝ)) h
  have hs : Real.sqrt 3 = |(a : ℝ) / (b : ℝ)| := by
    rw [← key, Real.sqrt_sq_eq_abs]
  rw [hs]
  push_cast
  ring

theorem horizStrict_iff_relaxed (dx dy : ℤ) : horizStrict dx dy ↔ horizRelaxed dx dy := by
  unfold horizStrict horizRelaxed
  constructor
  · rintro (h | ⟨h1, h2, h3⟩)
    · exact Or.inl h
    · exact Or.inr ⟨h1, le_of_lt h2, le_of_lt h3⟩
  · rintro (h | ⟨h1, h2, h3⟩)
    · exact Or.inl h
    · have hdx : 0 < dx ^ 2 :=
        lt_of_le_of_ne (sq_nonneg dx) (Ne.symm (pow_ne_zero 2 h1))
      refine Or.inr ⟨h1, ?_, ?_⟩
      · rcases lt_or_eq_of_le h2 with h | h
        · exact h
        · exfalso; rw [← h] at h3; nlinarith
      · rcases lt_or_eq_of_le h3 with h | h
        · exact h
        · exact absurd h.symm (sq_ne_three_mul_sq (2 * |dx| - |dy|) dx h1)

theorem vertStrict_iff_relaxed (dx dy : ℤ) : vertStrict dx dy ↔ vertRelaxed dx dy := by
  unfold vertStrict vertRelaxed
  constructor
  · rintro (h | ⟨h1, h2, h3⟩)
    · exact Or.inl h
    · exact Or.inr ⟨h1, le_of_lt h2, le_of_lt h3⟩
  · rintro (h | ⟨h1, h2, h3⟩)
    · exact Or.inl h
    · have hdx : 0 < dx ^ 2 :=
        lt_of_le_of_ne (sq_nonneg dx) (Ne.symm (pow_ne_zero 2 h1))
      refine Or.inr ⟨h1, ?_, ?_⟩
      · rcases lt_or_eq_of_le h2 with h | h
        · exact h
        · exfalso; rw [← h] at h3; nlinarith
      · rcases lt_or_eq_of_le h3 with h | h
        · exact h
        · exact absurd h.symm (sq_ne_three_mul_sq (|dy| - 2 * |dx|) dx h1)

theorem horiz_vert_disjoint (dx dy : ℤ) : ¬ (horizStrict dx dy ∧ vertStrict dx dy) := by
  unfold horizStrict vertStrict
  rintro ⟨h | ⟨h1, h2, _⟩, hv | ⟨hv1, v2, _⟩⟩
  · exact hv.2 h.2
  · exact hv1 h.1
  · exact h1 hv.1
  · linarith

theorem bucketFold_spec (lines : List LineSeg) :
    ∀ acc : List LineSeg × List LineSeg × List LineSeg,
      lines.foldl bucketStep acc =
        (acc.1 ++ lines.filter (fun l => decide (lineBucket l = LineBucket.horizontal)),
         acc.2.1 ++ lines.filter (fun l => decide (lineBucket l = LineBucket.vertical)),
         acc.2.2 ++ lines.filter (fun l => decide (lineBucket l = LineBucket.diagonal))) := by
  induction lines with
  | nil => intro acc; simp
  | cons l ls ih =>
    intro acc
    rw [List.foldl_cons, ih]
    cases hb : lineBucket l <;>
      simp [bucketStep, hb, List.filter_cons]

/-- Claim C6: the merger buckets every raw segment by its normalised
angle — horizontal for `angle ≤ 15°` or `≥ 165°`, vertical for the
75°–105° band, diagonal otherwise (on integer segments the strict
comparisons of the source and the inclusive band bounds of the claim
coincide, the boundary angles being unattainable) — merges only the two
axis-aligned buckets, and passes every diagonal segment through to the
output unchanged, as the trailing block of the result. -/
theorem c6_angle_buckets (lines : List LineSeg) (l : LineSeg) :
    mergeLines lines =
      merge_parallel_lines
        (lines.filter fun m => decide (lineBucket m = LineBucket.horizontal)) true ++
      merge_parallel_lines
        (lines.filter fun m => decide (lineBucket m = LineBucket.vertical)) false ++
      lines.filter (fun m => decide (lineBucket m = LineBucket.diagonal)) ∧
    (lineBucket l = LineBucket.horizontal ↔
      horizRelaxed (l.2.2.1 - l.1) (l.2.2.2 - l.2.1)) ∧
    (lineBucket l = LineBucket.vertical ↔
      vertRelaxed (l.2.2.1 - l.1) (l.2.2.2 - l.2.1)) ∧
    (lineBucket l = LineBucket.diagonal ↔
      (¬ horizRelaxed (l.2.2.1 - l.1) (l.2.2.2 - l.2.1) ∧
       ¬ vertRelaxed (l.2.2.1 - l.1) (l.2.2.2 - l.2.1))) := by
  refine ⟨?_, ?_, ?_, ?_⟩
  · unfold mergeLines
    by_cases he : lines.isEmpty
    · rw [List.isEmpty_iff] at he
      subst he
      simp [merge_parallel_lines, sortAscLine]
    · simp only [he, if_false, bucketFold_spec lines ([], [], [])]
      simp
  · rw [← horizStrict_iff_relaxed]
    simp only [lineBucket]
    split_ifs with h1 h2 <;> simp_all
  · rw [← vertStrict_iff_relaxed]
    simp only [lineBucket]
    split_ifs with h1 h2 <;> simp_all
    exact fun hv => horiz_vert_disjoint _ _ ⟨h1, hv⟩
  · rw [← horizStrict_iff_relaxed, ← vertStrict_iff_relaxed]
    simp only [lineBucket]
    split_ifs with h1 h2 <;> simp_all

/-! ### Support lemmas for thickness and confidence bounds (Claim C7) -/

/-- Bridging lemma for the minimum-length filter: the source's
`sqrt(dx^2+dy^2) < 30` is the embedded `dx^2+dy^2 < 900`. -/
theorem sqrt_lt_thirty_iff (n : ℤ) :
    Real.sqrt (n : ℝ) < 30 ↔ (n : ℝ) < 900 := by
  rw [Real.sqrt_lt' (by norm_num : (0:ℝ) < 30)]
  norm_num

theorem scanAux_le (p : ℕ → ProbeRes) : ∀ fuel d, scanAux p fuel d ≤ 49 := by
  intro fuel
  induction fuel with
  | zero => intro d; simp [scanAux]
  | succ f ih =>
    intro d
    simp only [scanAux]
    split_ifs with h
    · omega
    · cases p d
      · exact Nat.zero_le 49
      · show d ≤ 49
        omega
      · exact ih (d + 1)

theorem measure_thickness_bounds (pos neg : ℕ → ProbeRes) :
    0 ≤ measure_thickness_at_point pos neg ∧ measure_thickness_at_point pos neg ≤ 98 := by
  unfold measure_thickness_at_point scanDist
  have h1 := scanAux_le pos 50 1
  have h2 := scanAux_le neg 50 1
  constructor
  · positivity
  · have : scanAux pos 50 1 + scanAux neg 50 1 ≤ 98 := by omega
    exact_mod_cast this

theorem getD_mem_of_lt {α : Type} (l : List α) (i : ℕ) (d : α) (h : i < l.length) :
    l.getD i d ∈ l := by
  induction l generalizing i with
  | nil => simp at h
  | cons x xs ih =>
    cases i with
    | zero => simp
    | succ j =>
      simp only [List.getD_cons_succ]
      exact List.mem_cons_of_mem x (ih j (by simpa using h))

theorem insertAscQ_mem (x y : ℚ) (l : List ℚ) :
    y ∈ insertAscQ x l ↔ y = x ∨ y ∈ l := by
  induction l with
  | nil => simp [insertAscQ]
  | cons z zs ih =>
    simp only [insertAscQ]
    split_ifs with h
    · simp only [List.mem_cons, ih]
      tauto
    · simp [List.mem_cons]

theorem insertAscQ_length (x : ℚ) (l : List ℚ) :
    (insertAscQ x l).length = l.length + 1 := by
  induction l with
  | nil => simp [insertAscQ]
  | cons z zs ih =>
    simp only [insertAscQ]
    split_ifs with h
    · simp [ih]
    · simp

theorem sortAscQ_foldl_mem (l : List ℚ) :
    ∀ (acc : List ℚ) (y : ℚ),
      (y ∈ l.foldl (fun a x => insertAscQ x a) acc ↔ y ∈ acc ∨ y ∈ l) := by
  induction l with
  | nil => intro acc y; simp
  | cons x xs ih =>
    intro acc y
    rw [List.foldl_cons, ih, insertAscQ_mem]
    simp only [List.mem_cons]
    tauto

theorem sortAscQ_mem (l : List ℚ) (y : ℚ) : y ∈ sortAscQ l ↔ y ∈ l := by
  unfold sortAscQ
  rw [sortAscQ_foldl_mem]
  simp

theorem sortAscQ_foldl_length (l : List ℚ) :
    ∀ acc : List ℚ,
      (l.foldl (fun a x => insertAscQ x a) acc).length = acc.length + l.length := by
  induction l with
  | nil => intro acc; simp
  | cons x xs ih =>
    intro acc
    rw [List.foldl_cons, ih, insertAscQ_length]
    simp only [List.length_cons]
    omega

theorem sortAscQ_length (l : List ℚ) : (sortAscQ l).length = l.length := by
  unfold sortAscQ
  rw [sortAscQ_foldl_length]
  simp

theorem npMedian_bounds (l : List ℚ) (lo hi : ℚ) (hne : l ≠ [])
    (h : ∀ x ∈ l, lo ≤ x ∧ x ≤ hi) : lo ≤ npMedian l ∧ npMedian l ≤ hi := by
  have hmem : ∀ x ∈ sortAscQ l, lo ≤ x ∧ x ≤ hi := by
    intro x hx
    exact h x ((sortAscQ_mem l x).mp hx)
  have hpos : 0 < (sortAscQ l).length := by
    rw [sortAscQ_length]
    exact List.length_pos.mpr hne
  simp only [npMedian]
  split_ifs with hodd
  · exact hmem _ (getD_mem_of_lt _ _ _ (by omega))
  · have h2 : 2 ≤ (sortAscQ l).length := by omega
    have hm1 := hmem _ (getD_mem_of_lt (sortAscQ l) ((sortAscQ l).length / 2 - 1) 0 (by omega))
    have hm2 := hmem _ (getD_mem_of_lt (sortAscQ l) ((sortAscQ l).length / 2) 0 (by omega))
    constructor
    · linarith [hm1.1, hm2.1]
    · linarith [hm1.2, hm2.2]

theorem estimate_thickness_bounds (probe : ℕ → Bool → ℕ → ProbeRes) (l : LineSeg) :
    0 ≤ estimate_thickness probe l ∧ estimate_thickness probe l ≤ 100 := by
  simp only [estimate_thickness]
  split_ifs with h1 h2
  · norm_num [DEFAULT_WALL_THICKNESS]
  · norm_num [DEFAULT_WALL_THICKNESS]
  · have := npMedian_bounds _ 0 98 h2 ?_
    · exact ⟨this.1, by linarith [this.2]⟩
    · intro x hx
      rw [List.mem_filter] at hx
      obtain ⟨hx1, _⟩ := hx
      rw [List.mem_map] at hx1
      obtain ⟨i, _, rfl⟩ := hx1
      exact measure_thickness_bounds _ _

theorem thickness_score_bounds (t : ℚ) (ht : 0 ≤ t) :
    0 ≤ thickness_score t ∧ thickness_score t ≤ 1 := by
  unfold thickness_score
  split_ifs with h1 h2
  · norm_num
  · constructor
    · positivity
    · linarith
  · have h30 : 30 < t := by
      push_neg at h1 h2
      rcases le_or_lt t 30 with h | h
      · exact absurd (h1 h2) (not_lt.mpr h)
      · exact h
    constructor
    · have := le_max_left (1/2 : ℚ) (1 - (t - 30) / 50)
      linarith
    · apply max_le
      · norm_num
      · nlinarith

theorem wall_confidence_bounds (len : ℝ) (t : ℚ) (hl : 0 ≤ len) (ht : 0 ≤ t) :
    0 ≤ wall_calculate_confidence len t ∧ wall_calculate_confidence len t ≤ 1 := by
  obtain ⟨h1, h2⟩ := thickness_score_bounds t ht
  simp only [wall_calculate_confidence]
  have hls1 : min 1 (len / 100) ≤ 1 := min_le_left _ _
  have hls0 : (0 : ℝ) ≤ min 1 (len / 100) := le_min (by norm_num) (by positivity)
  have hc1 : ((thickness_score t : ℚ) : ℝ) ≤ 1 := by exact_mod_cast h2
  have hc0 : (0 : ℝ) ≤ ((thickness_score t : ℚ) : ℝ) := by exact_mod_cast h1
  constructor
  · linarith
  · linarith

/-- Claim C7: every wall segment the pipeline produces has thickness in
`[0, 2*50]` — each directed perpendicular scan being bounded by the
maximum search distance 50, and the default thickness 10 lying in the same
range — and confidence in `[0, 1]`. -/
theorem c7_thickness_confidence_bounds (lines : List LineSeg)
    (probe : LineSeg → ℕ → Bool → ℕ → ProbeRes)
    (boundary : Option (List Pt)) (size : ℕ × ℕ) :
    List.Forall (fun w : WallSegment =>
        0 ≤ w.thickness ∧ w.thickness ≤ 2 * 50 ∧ 0 ≤ w.confidence ∧ w.confidence ≤ 1)
      (create_wall_segments lines probe boundary size) ∧
    0 ≤ DEFAULT_WALL_THICKNESS ∧ DEFAULT_WALL_THICKNESS ≤ 2 * 50 := by
  refine ⟨?_, by norm_num [DEFAULT_WALL_THICKNESS], by norm_num [DEFAULT_WALL_THICKNESS]⟩
  rw [List.forall_iff_forall_mem]
  intro w hw
  rw [create_wall_segments, List.mem_filterMap] at hw
  obtain ⟨m, _, hm⟩ := hw
  by_cases hlen : (m.2.2.1 - m.1) ^ 2 + (m.2.2.2 - m.2.1) ^ 2 < 900
  · simp [hlen] at hm
  · simp only [hlen, if_false] at hm
    rw [← Option.some_inj] at hm
    cases hm
    obtain ⟨ht0, ht1⟩ := estimate_thickness_bounds (probe m) m
    obtain ⟨hc0, hc1⟩ := wall_confidence_bounds
      (Real.sqrt (((m.2.2.1 - m.1) ^ 2 + (m.2.2.2 - m.2.1) ^ 2 : ℤ) : ℝ))
      (estimate_thickness (probe m) m) (Real.sqrt_nonneg _) ht0
    exact ⟨ht0, by linarith, hc0, hc1⟩

/-! ### Support lemmas for sorting and room ids (Claim C3) -/

theorem mkRoomId_injective : Function.Injective mkRoomId := by
  intro a b h
  apply natRepr_injective
  have hd := congrArg String.data h
  simp only [mkRoomId, String.data_append] at hd
  have hd2 : (Nat.repr a).data = (Nat.repr b).data := by
    exact List.append_cancel_left hd
  have hra : (Nat.repr a).data = Nat.toDigits 10 a := rfl
  have hrb : (Nat.repr b).data = Nat.toDigits 10 b := rfl
  have ha := chListVal_toDigitsCore (a + 1) a (Nat.lt_succ_self a)
  have hb := chListVal_toDigitsCore (b + 1) b (Nat.lt_succ_self b)
  have : Nat.toDigits 10 a = Nat.toDigits 10 b := by
    rw [← hra, ← hrb, hd2]
  have hval : chListVal (Nat.toDigits 10 a) = chListVal (Nat.toDigits 10 b) := by rw [this]
  rw [Nat.toDigits] at hval
  rw [Nat.toDigits] at hval
  rw [ha] at hval
  rw [hb] at hval
  -- now hval : a = b up to the roundtrip; finish
  exact hval ▸ rfl

theorem insertByAreaDesc_mem (x y : RoomContour) (l : List RoomContour) :
    y ∈ insertByAreaDesc x l ↔ y = x ∨ y ∈ l := by
  induction l with
  | nil => simp [insertByAreaDesc]
  | cons z zs ih =>
    simp only [insertByAreaDesc]
    split_ifs with h
    · simp only [List.mem_cons, ih]
      tauto
    · simp [List.mem_cons]

theorem insertByAreaDesc_sorted (x : RoomContour) (l : List RoomContour)
    (h : List.Sorted (fun a b : RoomContour => b.area ≤ a.area) l) :
    List.Sorted (fun a b : RoomContour => b.area ≤ a.area) (insertByAreaDesc x l) := by
  induction l with
  | nil => simp [insertByAreaDesc]
  | cons y ys ih =>
    rw [List.sorted_cons] at h
    obtain ⟨hy, hys⟩ := h
    simp only [insertByAreaDesc]
    split_ifs with hle
    · rw [List.sorted_cons]
      refine ⟨?_, ih hys⟩
      intro b hb
      rw [insertByAreaDesc_mem] at hb
      rcases hb with rfl | hb
      · exact hle
      · exact hy b hb
    · rw [List.sorted_cons]
      refine ⟨?_, List.sorted_cons.mpr ⟨hy, hys⟩⟩
      intro b hb
      rcases List.mem_cons.mp hb with rfl | hb
      · linarith [lt_of_not_le hle]
      · have := hy b hb
        have := lt_of_not_le hle
        linarith

theorem sortByAreaDesc_foldl_sorted (l : List RoomContour) :
    ∀ acc, List.Sorted (fun a b : RoomContour => b.area ≤ a.area) acc →
      List.Sorted (fun a b : RoomContour => b.area ≤ a.area)
        (l.foldl (fun a r => insertByAreaDesc r a) acc) := by
  induction l with
  | nil => intro acc h; simpa using h
  | cons x xs ih =>
    intro acc h
    rw [List.foldl_cons]
    exact ih _ (insertByAreaDesc_sorted x acc h)

theorem sortByAreaDesc_sorted (l : List RoomContour) :
    List.Sorted (fun a b : RoomContour => b.area ≤ a.area) (sortByAreaDesc l) :=
  sortByAreaDesc_foldl_sorted l [] (by simp)

theorem insertByAreaDesc_perm (x : RoomContour) (l : List RoomContour) :
    List.Perm (insertByAreaDesc x l) (x :: l) := by
  induction l with
  | nil => simp [insertByAreaDesc]
  | cons y ys ih =>
    simp only [insertByAreaDesc]
    split_ifs with h
    · exact ((ih.cons y).trans (List.Perm.swap x y ys))
    · rfl

theorem sortByAreaDesc_foldl_perm (l : List RoomContour) :
    ∀ acc, List.Perm (l.foldl (fun a r => insertByAreaDesc r a) acc) (acc ++ l) := by
  induction l with
  | nil => intro acc; simp
  | cons x xs ih =>
    intro acc
    rw [List.foldl_cons]
    refine (ih _).trans ?_
    refine (List.Perm.append_right xs (insertByAreaDesc_perm x acc)).trans ?_
    exact List.perm_middle.symm

theorem sortByAreaDesc_perm (l : List RoomContour) : List.Perm (sortByAreaDesc l) l := by
  have := sortByAreaDesc_foldl_perm l []
  simpa [sortByAreaDesc] using this

theorem goodIds_append (rooms : List RoomContour) (c : ℕ) (rm : RoomContour)
    (h : goodIds rooms c) (hid : rm.id = mkRoomId (c + 1)) :
    goodIds (rooms ++ [rm]) (c + 1) := by
  obtain ⟨ks, hmap, hchain, hbound⟩ := h
  refine ⟨ks ++ [c + 1], ?_, ?_, ?_⟩
  · simp [hmap, hid]
  · rw [List.chain'_append]
    refine ⟨hchain, List.chain'_singleton _, ?_⟩
    intro x hx y hy
    simp only [List.head?_cons, Option.mem_def, Option.some_inj] at hy
    subst hy
    have hxk : x ∈ ks := List.mem_of_mem_getLast? hx
    have := hbound x hxk
    omega
  · intro k hk
    rcases List.mem_append.mp hk with hk | hk
    · exact le_trans (hbound k hk) (Nat.le_succ c)
    · simp at hk
      omega

theorem goodIds_mono (rooms : List RoomContour) (c c' : ℕ) (h : goodIds rooms c)
    (hcc : c ≤ c') : goodIds rooms c' := by
  obtain ⟨ks, hmap, hchain, hbound⟩ := h
  exact ⟨ks, hmap, hchain, fun k hk => le_trans (hbound k hk) hcc⟩

theorem goodIds_nodup (rooms : List RoomContour) (c : ℕ) (h : goodIds rooms c) :
    (rooms.map RoomContour.id).Nodup := by
  obtain ⟨ks, hmap, hchain, _⟩ := h
  rw [hmap]
  refine List.Nodup.map mkRoomId_injective ?_
  have := List.chain'_iff_pairwise.mp hchain
  exact this.imp Nat.ne_of_lt

theorem floodStep_goodIds (o : RoomOracle) (acc : List RoomContour × ℕ) (reg : Region)
    (h : goodIds acc.1 acc.2) :
    goodIds (floodStep o acc reg).1 (floodStep o acc reg).2 ∧
      acc.2 ≤ (floodStep o acc reg).2 := by
  simp only [floodStep]
  split_ifs with h1
  · match hc : reg.contour with
    | none => exact ⟨h, le_refl _⟩
    | some c =>
      simp only
      split_ifs with h2 h3 h4
      · refine ⟨goodIds_append acc.1 acc.2 _ h ?_, Nat.le_succ _⟩
        rfl
      · exact ⟨h, le_refl _⟩
      · exact ⟨h, le_refl _⟩
      · exact ⟨h, le_refl _⟩
  · exact ⟨h, le_refl _⟩

theorem flood_foldl_goodIds (o : RoomOracle) (regions : List Region) :
    ∀ acc : List RoomContour × ℕ, goodIds acc.1 acc.2 →
      goodIds (regions.foldl (floodStep o) acc).1 (regions.foldl (floodStep o) acc).2 := by
  induction regions with
  | nil => intro acc h; simpa using h
  | cons r rs ih =>
    intro acc h
    rw [List.foldl_cons]
    exact ih _ (floodStep_goodIds o acc r h).1

theorem create_rooms_foldl_goodIds (o : RoomOracle) (contours : List (List Pt)) :
    ∀ acc : List RoomContour × ℕ, goodIds acc.1 acc.2 →
      goodIds (contours.foldl
        (fun acc c =>
          let r := create_single_room o c acc.2
          (acc.1 ++ [r.1], r.2)) acc).1
        (contours.foldl
          (fun acc c =>
            let r := create_single_room o c acc.2
            (acc.1 ++ [r.1], r.2)) acc).2 := by
  induction contours with
  | nil => intro acc h; simpa using h
  | cons c cs ih =>
    intro acc h
    rw [List.foldl_cons]
    refine ih _ ?_
    simp only
    exact goodIds_append acc.1 acc.2 _ h rfl

theorem goodIds_nil (c : ℕ) : goodIds [] c :=
  ⟨[], by simp, List.chain'_nil, by simp⟩

theorem flood_rooms_nodup (o : RoomOracle) (c : ℕ) :
    ((detect_rooms_flood_fill o c).1.map RoomContour.id).Nodup := by
  unfold detect_rooms_flood_fill
  simp only
  have hg := flood_foldl_goodIds o o.regions ([], c) (goodIds_nil c)
  have hnd := goodIds_nodup _ _ hg
  have hperm := (sortByAreaDesc_perm (o.regions.foldl (floodStep o) ([], c)).1).map
    RoomContour.id
  exact hperm.nodup_iff.mpr hnd

theorem create_rooms_nodup (o : RoomOracle) (contours : List (List Pt)) (c : ℕ) :
    ((create_rooms o contours c).1.map RoomContour.id).Nodup := by
  unfold create_rooms
  simp only
  have hg := create_rooms_foldl_goodIds o contours ([], c) (goodIds_nil c)
  have hnd := goodIds_nodup _ _ hg
  have hperm := (sortByAreaDesc_perm ((contours.foldl
    (fun acc c =>
      let r := create_single_room o c acc.2
      (acc.1 ++ [r.1], r.2)) ([], c)).1)).map RoomContour.id
  exact hperm.nodup_iff.mpr hnd

theorem flood_rooms_sorted (o : RoomOracle) (c : ℕ) :
    List.Sorted (fun a b : RoomContour => b.area ≤ a.area)
      (detect_rooms_flood_fill o c).1 := by
  unfold detect_rooms_flood_fill
  simp only
  exact sortByAreaDesc_sorted _

theorem create_rooms_sorted (o : RoomOracle) (contours : List (List Pt)) (c : ℕ) :
    List.Sorted (fun a b : RoomContour => b.area ≤ a.area)
      (create_rooms o contours c).1 := by
  unfold create_rooms
  simp only
  exact sortByAreaDesc_sorted _

/-- Claim C3, amended: the returned rooms are sorted by area descending
and no two rooms of one result share an id; ids are `room-k` with `k` the
room's 1-based creation rank in this run (the counter is reset to 0 at the
start of every call).  However the i-th room of the returned list need not
carry id `room-i`: ids are assigned in discovery order before the area
sort, and when the contour strategy's rooms are selected their numbering
continues after the flood-fill strategy's count. -/
theorem c3_amended_sorted_unique_ids (o : RoomOracle) (c0 : ℕ) :
    List.Sorted (fun a b : RoomContour => b.area ≤ a.area) (roomDetect o c0).1.rooms ∧
    ((roomDetect o c0).1.rooms.map RoomContour.id).Nodup := by
  simp only [roomDetect]
  by_cases h : (detect_rooms_flood_fill o 0).1.length < 2
  · simp only [h, if_true]
    by_cases h2 : (detect_rooms_flood_fill o 0).1.length <
        ((create_rooms o
          (filter_contours (find_contours o) ((o.W : ℚ) * (o.H : ℚ)))
          (detect_rooms_flood_fill o 0).2).1).length
    · simp only [h2, if_true]
      exact ⟨create_rooms_sorted o _ _, create_rooms_nodup o _ _⟩
    · simp only [h2, if_false]
      exact ⟨flood_rooms_sorted o 0, flood_rooms_nodup o 0⟩
  · simp only [h, if_false]
    exact ⟨flood_rooms_sorted o 0, flood_rooms_nodup o 0⟩

/-- Claim C3, counterexample: on `cexOracle` the detector returns the two
rooms sorted by area descending, but their ids are `room-2, room-1` in
that order — ids record discovery order, not sorted position, so the i-th
room of the returned list does not carry id `room-i`. -/
theorem c3_counterexample :
    ((roomDetect cexOracle 0).1.rooms.map RoomContour.id) = ["room-2", "room-1"] ∧
    ¬ ((roomDetect cexOracle 0).1.rooms.map RoomContour.id =
        (List.range (roomDetect cexOracle 0).1.rooms.length).map
          (fun i => "room-" ++ Nat.repr (i + 1))) := by
  have hmap : ((roomDetect cexOracle 0).1.rooms.map RoomContour.id) =
      ["room-2", "room-1"] := by
    norm_num [roomDetect, detect_rooms_flood_fill, floodStep, cexOracle, cexRegionA,
      cexRegionB, MIN_ROOM_AREA, MIN_ROOM_AREA_REL, MAX_ROOM_AREA_REL, MIN_ASPECT_REL,
      MAX_ASPECT_REL, MIN_RECTANGULARITY, boundingRect, contourArea, shoelace, cross,
      List.rotate, create_single_room, sortByAreaDesc, insertByAreaDesc, mkRoomId,
      find_contours, filter_contours, create_rooms]
    constructor <;> rfl
  refine ⟨hmap, ?_⟩
  intro hcl
  have hlen : (roomDetect cexOracle 0).1.rooms.length = 2 := by
    have := congrArg List.length hmap
    simpa using this
  rw [hmap, hlen] at hcl
  have h2 : (List.range 2).map (fun i => "room-" ++ Nat.repr (i + 1)) =
      ["room-1", "room-2"] := by
    norm_num [List.range_succ]
    constructor <;> rfl
  rw [h2] at hcl
  have : ("room-2" : String) = "room-1" := by
    injection hcl
  exact absurd this (by decide)

theorem create_single_room_bounds (o : RoomOracle) (c : List Pt) (k : ℕ) :
    ((create_single_room o c k).1).bounds = boundingRect c := rfl

theorem alg_iff_arccos_real (A B D : ℝ) (hA : 0 < A) (hB : 0 < B) (hCS : D ^ 2 ≤ A * B) :
    (0 ≤ 2 * A * B - 4 * D ^ 2 ∧ 3 * (A * B) ^ 2 ≤ (2 * A * B - 4 * D ^ 2) ^ 2) ↔
      |Real.arccos (D / (Real.sqrt A * Real.sqrt B)) * (180 / Real.pi) - 90| ≤ 15 := by
  have hm1sq : Real.sqrt A ^ 2 = A := Real.sq_sqrt hA.le
  have hm2sq : Real.sqrt B ^ 2 = B := Real.sq_sqrt hB.le
  set c := D / (Real.sqrt A * Real.sqrt B) with hcdef
  have hAB : (0 : ℝ) < A * B := mul_pos hA hB
  have hc2 : c ^ 2 = D ^ 2 / (A * B) := by
    rw [hcdef, div_pow, mul_pow, hm1sq, hm2sq]
  have hc2le : c ^ 2 ≤ 1 := by
    rw [hc2, div_le_one hAB]
    exact hCS
  have hc1 : |c| ≤ 1 := by
    have h1 := Real.sqrt_le_sqrt hc2le
    rw [Real.sqrt_sq_eq_abs] at h1
    simpa using h1
  have hcmem := abs_le.mp hc1
  set t := Real.sin (Real.pi / 12) with htdef
  have hpi := Real.pi_pos
  have ht0 : 0 < t := by
    rw [htdef]
    exact Real.sin_pos_of_pos_of_lt_pi (by positivity) (by linarith)
  have ht2 : t ^ 2 = (2 - Real.sqrt 3) / 4 := by
    rw [htdef, Real.sin_sq_eq_half_sub]
    have h26 : 2 * (Real.pi / 12) = Real.pi / 6 := by ring
    rw [h26, Real.cos_pi_div_six]
    ring
  have hcos_hi : Real.cos (7 * Real.pi / 12) = -t := by
    have h : 7 * Real.pi / 12 = Real.pi / 12 + Real.pi / 2 := by ring
    rw [h, Real.cos_add_pi_div_two, htdef]
  have hcos_lo : Real.cos (5 * Real.pi / 12) = t := by
    have h : 5 * Real.pi / 12 = Real.pi / 2 - Real.pi / 12 := by ring
    rw [h, Real.cos_pi_div_two_sub, htdef]
  have harcmem : Real.arccos c ∈ Set.Icc (0 : ℝ) Real.pi :=
    ⟨Real.arccos_nonneg c, Real.arccos_le_pi c⟩
  have h5mem : (5 * Real.pi / 12) ∈ Set.Icc (0 : ℝ) Real.pi :=
    ⟨by positivity, by linarith⟩
  have h7mem : (7 * Real.pi / 12) ∈ Set.Icc (0 : ℝ) Real.pi :=
    ⟨by positivity, by linarith⟩
  have hupA : Real.cos (7 * Real.pi / 12) ≤ Real.cos (Real.arccos c) ↔
      Real.arccos c ≤ 7 * Real.pi / 12 :=
    Real.strictAntiOn_cos.le_iff_le h7mem harcmem
  have hloA : Real.cos (Real.arccos c) ≤ Real.cos (5 * Real.pi / 12) ↔
      5 * Real.pi / 12 ≤ Real.arccos c :=
    Real.strictAntiOn_cos.le_iff_le harcmem h5mem
  rw [Real.cos_arccos hcmem.1 hcmem.2, hcos_hi] at hupA
  rw [Real.cos_arccos hcmem.1 hcmem.2, hcos_lo] at hloA
  have hband : (|Real.arccos c * (180 / Real.pi) - 90| ≤ 15) ↔
      (5 * Real.pi / 12 ≤ Real.arccos c ∧ Real.arccos c ≤ 7 * Real.pi / 12) := by
    have h180 : Real.arccos c * (180 / Real.pi) - 90 =
        (Real.arccos c - Real.pi / 2) * (180 / Real.pi) := by
      field_simp
      ring
    have hq : (0 : ℝ) < 180 / Real.pi := by positivity
    rw [h180, abs_mul, abs_of_pos hq, ← le_div_iff₀ hq]
    have hdiv : (15 : ℝ) / (180 / Real.pi) = Real.pi / 12 := by
      field_simp
      ring
    rw [hdiv, abs_le]
    constructor
    · rintro ⟨h1, h2⟩
      constructor <;> linarith
    · rintro ⟨h1, h2⟩
      constructor <;> linarith
  have hchain : (5 * Real.pi / 12 ≤ Real.arccos c ∧ Real.arccos c ≤ 7 * Real.pi / 12) ↔
      c ^ 2 ≤ t ^ 2 := by
    rw [← hloA, ← hupA]
    constructor
    · rintro ⟨h1, h2⟩
      have hprod : 0 ≤ (t - c) * (t + c) := by
        apply mul_nonneg
        · linarith
        · linarith
      nlinarith [hprod]
    · intro h
      have habs : |c| ≤ t := by
        have h1 := Real.sqrt_le_sqrt h
        rw [Real.sqrt_sq_eq_abs, Real.sqrt_sq ht0.le] at h1
        exact h1
      have h2 := abs_le.mp habs
      exact ⟨h2.2, h2.1⟩
  rw [hband, hchain, ht2, hc2]
  have hs3 : Real.sqrt 3 ^ 2 = 3 := Real.sq_sqrt (by norm_num)
  have hs3pos : (0 : ℝ) ≤ Real.sqrt 3 := Real.sqrt_nonneg 3
  rw [div_le_div_iff hAB (by norm_num : (0:ℝ) < 4)]
  constructor
  · rintro ⟨h0, h3⟩
    have hsq : (Real.sqrt 3 * (A * B)) ^ 2 ≤ (2 * A * B - 4 * D ^ 2) ^ 2 := by
      rw [mul_pow, hs3]
      linarith
    have hroot := Real.sqrt_le_sqrt hsq
    rw [Real.sqrt_sq (mul_nonneg hs3pos hAB.le), Real.sqrt_sq h0] at hroot
    nlinarith [hroot]
  · intro h
    have hkey : Real.sqrt 3 * (A * B) ≤ 2 * A * B - 4 * D ^ 2 := by nlinarith [h]
    have h0 : 0 ≤ 2 * A * B - 4 * D ^ 2 :=
      le_trans (mul_nonneg hs3pos hAB.le) hkey
    refine ⟨h0, ?_⟩
    have hm := mul_self_le_mul_self (mul_nonneg hs3pos hAB.le) hkey
    nlinarith [hm, hs3]

/-- Bridging lemma certifying `isRightAngle` against the source's
computation: for nonzero legs, the embedded integer test holds exactly
when `degrees(arccos(dot / (m1 * m2)))` lies within 15° of 90°. -/
theorem isRightAngle_iff_arccos (p1 p2 p3 : Pt)
    (ha : (p1.1 - p2.1) ^ 2 + (p1.2 - p2.2) ^ 2 ≠ 0)
    (hb : (p3.1 - p2.1) ^ 2 + (p3.2 - p2.2) ^ 2 ≠ 0) :
    isRightAngle p1 p2 p3 ↔
      |Real.arccos
          ((((p1.1 - p2.1) * (p3.1 - p2.1) + (p1.2 - p2.2) * (p3.2 - p2.2) : ℤ) : ℝ) /
            (Real.sqrt (((p1.1 - p2.1) ^ 2 + (p1.2 - p2.2) ^ 2 : ℤ) : ℝ) *
              Real.sqrt (((p3.1 - p2.1) ^ 2 + (p3.2 - p2.2) ^ 2 : ℤ) : ℝ))) *
          (180 / Real.pi) - 90| ≤ 15 := by
  have ha0 : (0 : ℤ) < (p1.1 - p2.1) ^ 2 + (p1.2 - p2.2) ^ 2 :=
    lt_of_le_of_ne (by positivity) (Ne.symm ha)
  have hb0 : (0 : ℤ) < (p3.1 - p2.1) ^ 2 + (p3.2 - p2.2) ^ 2 :=
    lt_of_le_of_ne (by positivity) (Ne.symm hb)
  have hA : (0 : ℝ) < (((p1.1 - p2.1) ^ 2 + (p1.2 - p2.2) ^ 2 : ℤ) : ℝ) := by
    exact_mod_cast ha0
  have hB : (0 : ℝ) < (((p3.1 - p2.1) ^ 2 + (p3.2 - p2.2) ^ 2 : ℤ) : ℝ) := by
    exact_mod_cast hb0
  have hCSZ : ((p1.1 - p2.1) * (p3.1 - p2.1) + (p1.2 - p2.2) * (p3.2 - p2.2)) ^ 2 ≤
      ((p1.1 - p2.1) ^ 2 + (p1.2 - p2.2) ^ 2) * ((p3.1 - p2.1) ^ 2 + (p3.2 - p2.2) ^ 2) := by
    nlinarith [sq_nonneg ((p1.1 - p2.1) * (p3.2 - p2.2) - (p1.2 - p2.2) * (p3.1 - p2.1))]
  have hCS : ((((p1.1 - p2.1) * (p3.1 - p2.1) + (p1.2 - p2.2) * (p3.2 - p2.2) : ℤ) : ℝ)) ^ 2 ≤
      (((p1.1 - p2.1) ^ 2 + (p1.2 - p2.2) ^ 2 : ℤ) : ℝ) *
        (((p3.1 - p2.1) ^ 2 + (p3.2 - p2.2) ^ 2 : ℤ) : ℝ) := by
    exact_mod_cast hCSZ
  rw [← alg_iff_arccos_real _ _ _ hA hB hCS]
  simp only [isRightAngle]
  constructor
  · rintro ⟨_, _, h1, h2⟩
    constructor
    · exact_mod_cast h1
    · exact_mod_cast h2
  · rintro ⟨h1, h2⟩
    refine ⟨ha, hb, ?_, ?_⟩
    · exact_mod_cast h1
    · exact_mod_cast h2

/-- Bridging lemma for the boundary-proximity test: the source's
`sqrt(d2) < 50` is the embedded `d2 < 2500` of `midDistLt`. -/
theorem sqrt_lt_fifty_iff (q : ℚ) : Real.sqrt (q : ℝ) < 50 ↔ (q : ℝ) < 2500 := by
  rw [Real.sqrt_lt' (by norm_num : (0 : ℝ) < 50)]
  norm_num
